import Mathlib

/-!
Verification of the MISA IHos AI-agent repository.

Python strings are modelled as `List Char` wherever character-level structure
matters (splitting, slicing, prefixes), and as Lean `String` where only
append/equality/lexicographic comparison are needed.  Fallible calls to
external collaborators (LLM, Mongo, Milvus) are modelled as `Except`-valued
oracles passed in as parameters; loops whose termination is in question are
modelled with explicit fuel, `none` meaning the fuel ran out.
-/

namespace IHos

/-! ## Text chunker (`src/services/milvus/milvus_repo.py`, `_split_text`) -/

/-- Embedding of Python `text.split()` (no separator argument): split on runs of
whitespace, dropping empty pieces.  `acc` holds the reversed current word. -/
def pySplitAux : List Char → List Char → List (List Char)
  | [], acc => if acc = [] then [] else [acc.reverse]
  | c :: cs, acc =>
    if c.isWhitespace then
      if acc = [] then pySplitAux cs [] else acc.reverse :: pySplitAux cs []
    else
      pySplitAux cs (c :: acc)

/-- Python `text.split()` on a character-list string. -/
def pySplit (s : List Char) : List (List Char) := pySplitAux s []

/-- Python `" ".join(words)` on character-list words. -/
def joinSpace : List (List Char) → List Char
  | [] => []
  | [w] => w
  | w :: ws => w ++ ' ' :: joinSpace ws

/-- The `while start < n` loop of `_split_text`, with explicit fuel
(one unit per iteration; `none` = fuel exhausted, i.e. the Python loop is
still running).  Mirrors the source line by line:
`end = min(start + chunk_size, n)`; `chunk_words = words[start:end]`;
append the joined chunk when the slice is nonempty; `break` when `end == n`;
otherwise `start = end - overlap if overlap > 0 else end`, clamped at 0
(Nat subtraction performs the clamp of `if start < 0: start = 0`). -/
def splitLoop (ws : List (List Char)) (c o : Nat) : Nat → Nat → List (List Char) →
    Option (List (List Char))
  | 0, _, _ => none
  | fuel + 1, start, acc =>
    if start < ws.length then
      let e := min (start + c) ws.length
      let cw := (ws.drop start).take (e - start)
      let acc2 := if cw = [] then acc else acc ++ [joinSpace cw]
      if e = ws.length then some acc2
      else splitLoop ws c o fuel (if 0 < o then e - o else e) acc2
    else some acc

/-- Parameter normalization at the top of `_split_text`:
`if chunk_size <= 0: chunk_size = 800`. -/
def normChunkSize (chunk_size : Int) : Nat :=
  if chunk_size ≤ 0 then 800 else chunk_size.toNat

/-- Parameter normalization at the top of `_split_text`:
`if overlap < 0: overlap = 0`. -/
def normOverlap (overlap : Int) : Nat :=
  if overlap < 0 then 0 else overlap.toNat

/-- Embedding of `_split_text(text, chunk_size, overlap)` with fuel for the
`while` loop.  `some chunks` is the returned list; `none` means the Python
loop had not finished within `fuel` iterations. -/
def split_text_fuel (text : List Char) (chunk_size overlap : Int) (fuel : Nat) :
    Option (List (List Char)) :=
  let c := normChunkSize chunk_size
  let o := normOverlap overlap
  let ws := pySplit text
  if ws = [] then some [] else splitLoop ws c o fuel 0 []

/-- Proposition that `_split_text` diverges on an input: no amount of fuel finishes the loop. -/
def chunkerDiverges (text : List Char) (chunk_size overlap : Int) : Prop :=
  ∀ fuel, split_text_fuel text chunk_size overlap fuel = none

/-- The sequence of word windows produced by the `_split_text` loop from a
given `start`, keeping each window as a list of words instead of joining it.
Same control flow as `splitLoop`. -/
def windowsFrom (ws : List (List Char)) (c o : Nat) : Nat → Nat → Option (List (List (List Char)))
  | 0, _ => none
  | fuel + 1, start =>
    if start < ws.length then
      let e := min (start + c) ws.length
      let cw := (ws.drop start).take (e - start)
      if e = ws.length then some [cw]
      else (windowsFrom ws c o fuel (if 0 < o then e - o else e)).map (cw :: ·)
    else some []

/-! ## Streaming reconciler (`src/inference/run.py`, `stream_agent`) -/

/-- Embedding of the delta-extraction loop in `stream_agent`: `last` starts as
`""`; for each chunk content `full`, a falsy (`None`/empty) content is skipped
without touching `last` (`if not full: continue`); otherwise the delta is
`full[len(last):]` when `full.startswith(last)` and `full` itself otherwise,
and `last` becomes `full`.  Returns the emitted delta sequence; the characters
yielded to the client are the flattening of these deltas. -/
def streamDeltas (last : List Char) : List (List Char) → List (List Char)
  | [] => []
  | full :: rest =>
    if full = [] then streamDeltas last rest
    else if last.isPrefixOf full then full.drop last.length :: streamDeltas full rest
    else full :: streamDeltas full rest

/-- Spec-side reconciler following the claim's words literally: every
emission produces a delta (`full[len(lastFull):]` on a prefix match, the
whole `full` otherwise) "with lastFull then set to full" — no empty-content
skip.  Compared against the code's `streamDeltas`, which skips falsy
emissions without updating `last`. -/
def streamDeltasSpec (last : List Char) : List (List Char) → List (List Char)
  | [] => []
  | full :: rest =>
    if last.isPrefixOf full then full.drop last.length :: streamDeltasSpec full rest
    else full :: streamDeltasSpec full rest

/-! ## Meeting-room booking (`src/tools/registry.py`,
`available_meeting_rooms` and `book_meeting_room`) -/

/-- Lexicographic strict comparison of strings by code point, the order
MongoDB uses for the `$lt`/`$gt` operators on string fields. -/
def lexLt : List Char → List Char → Bool
  | [], [] => false
  | [], _ :: _ => true
  | _ :: _, [] => false
  | a :: as, b :: bs => if a < b then true else if b < a then false else lexLt as bs

/-- MongoDB `$lt` on strings. -/
def strLt (a b : String) : Bool := lexLt a.data b.data

/-- MongoDB `$lte` on strings. -/
def strLe (a b : String) : Bool := strLt a b || a == b

/-- MongoDB comparison operators on a possibly-missing document field:
a comparison against a missing field matches no document. -/
def optLt (f : Option String) (v : String) : Bool :=
  match f with
  | some x => strLt x v
  | none => false

/-- MongoDB `$gt` on a possibly-missing field. -/
def optGt (f : Option String) (v : String) : Bool :=
  match f with
  | some x => strLt v x
  | none => false

/-- MongoDB `$lte` on a possibly-missing field. -/
def optLe (f : Option String) (v : String) : Bool :=
  match f with
  | some x => strLe x v
  | none => false

/-- MongoDB `$gte` on a possibly-missing field. -/
def optGe (f : Option String) (v : String) : Bool :=
  match f with
  | some x => strLe v x
  | none => false

/-- A document of the `schedule_booking` Mongo collection.  Documents written
by `book_meeting_room` carry `time_start`/`time_end`; the availability query
reads `start_time`/`end_time`; either pair may be missing on a given
document, so all four are optional. -/
structure ScheduleDoc where
  room_name : String
  booking_date : String
  start_time : Option String := none
  end_time : Option String := none
  time_start : Option String := none
  time_end : Option String := none
  employee_name : Option String := none
  purpose : Option String := none
deriving DecidableEq

/-- A document of the `meeting_rooms` collection (fields the availability
check reads; `r.get("is_available", True)` defaults to true). -/
structure RoomDoc where
  room_name : String
  is_available : Bool := true
deriving DecidableEq

/-- The `schedule_booking` filter of `available_meeting_rooms`, translated
clause by clause from the Mongo query document:
`booking_date == d` and (`start_time < time_end && start_time >= time_start`
or `end_time > time_start && end_time <= time_end`
or `start_time <= time_start && end_time >= time_end`). -/
def scheduleConflictQuery (time_start time_end booking_date : String)
    (b : ScheduleDoc) : Bool :=
  (b.booking_date == booking_date) &&
  ((optLt b.start_time time_end && optGe b.start_time time_start) ||
   (optGt b.end_time time_start && optLe b.end_time time_end) ||
   (optLe b.start_time time_start && optGe b.end_time time_end))

/-- Embedding of `available_meeting_rooms(time_start, time_end, booking_date)` over
explicit stores: rooms that are `is_available` and whose name is not among
the rooms with a conflicting booking. -/
def available_meeting_rooms (rooms : List RoomDoc) (bookings : List ScheduleDoc)
    (time_start time_end booking_date : String) : List RoomDoc :=
  let conflicting := bookings.filter (scheduleConflictQuery time_start time_end booking_date)
  let booked_names := conflicting.map (fun b => b.room_name)
  rooms.filter (fun r => r.is_available && !(booked_names.contains r.room_name))

/-- Modelled from the spec (§4.7): candidate `[reqStart, reqEnd)` and existing
`[exStart, exEnd)` overlap iff `reqStart ≤ exStart < reqEnd`, or
`reqStart < exEnd ≤ reqEnd`, or `exStart ≤ reqStart ∧ exEnd ≥ reqEnd`.
Used as the refinement target for the code's Mongo filter. -/
def overlapSpec (reqStart reqEnd exStart exEnd : String) : Prop :=
  (strLe reqStart exStart ∧ strLt exStart reqEnd) ∨
  (strLt reqStart exEnd ∧ strLe exEnd reqEnd) ∨
  (strLe exStart reqStart ∧ strLe reqEnd exEnd)

instance (reqStart reqEnd exStart exEnd : String) :
    Decidable (overlapSpec reqStart reqEnd exStart exEnd) := by
  unfold overlapSpec
  infer_instance

/-- An existing booking of room A on 01-09-2023 from 09:30 to 09:45, stored
with the field names the availability query reads. -/
def conflictingExisting : ScheduleDoc :=
  { room_name := "A", booking_date := "01-09-2023",
    start_time := some "09:30", end_time := some "09:45" }

/-- The `room: Room` argument of `book_meeting_room` (Pydantic model in
`src/model/schemas.py`). -/
structure Room where
  id : String
  employee_name : String
  room_name : String
  time_start : String
  time_end : String
  booking_date : String
  purpose : String := ""
deriving DecidableEq

/-- The `booking_info` document `book_meeting_room` inserts into
`schedule_booking`: note it stores `time_start`/`time_end`, not the
`start_time`/`end_time` fields the availability query compares. -/
def roomToDoc (r : Room) : ScheduleDoc :=
  { room_name := r.room_name, booking_date := r.booking_date,
    time_start := some r.time_start, time_end := some r.time_end,
    employee_name := some r.employee_name, purpose := some r.purpose }

/-- Result JSON of `book_meeting_room`. -/
structure BookResult where
  success : Bool
  message : String
deriving DecidableEq

/-- Embedding of `book_meeting_room(room)`: it builds `booking_info` and inserts it; the only
failure mode is the store raising on insert.  There is no overlap check. -/
def book_meeting_room (store : List ScheduleDoc) (room : Room)
    (insertOutcome : Except String Unit) : BookResult × List ScheduleDoc :=
  match insertOutcome with
  | .error e => (⟨false, "Lỗi hệ thống khi lưu booking: " ++ e⟩, store)
  | .ok _ => (⟨true, "Đặt phòng thành công."⟩, store ++ [roomToDoc room])

/-- A booking request for room A on 01-09-2023 from 09:00 to 10:00, which
overlaps `conflictingExisting`. -/
def overlappingRequest : Room :=
  { id := "r1", employee_name := "Nam", room_name := "A",
    time_start := "09:00", time_end := "10:00", booking_date := "01-09-2023" }

/-! ## Vector-index insert migration (`src/services/milvus/milvus_repo.py`,
`insert_embeddings`) -/

/-- Python substring test `needle in hay` on character lists. -/
def listInfixOf (needle : List Char) : List Char → Bool
  | [] => decide (needle = [])
  | c :: t => needle.isPrefixOf (c :: t) || listInfixOf needle t

/-- Python `needle in hay` for strings. -/
def strContains (hay needle : String) : Bool := listInfixOf needle.data hay.data

/-- A record passed to `insert_embeddings`; embedding entries are modelled as
integers since only the vector's length (its dimension) matters here. -/
structure MilvusRecord where
  id : Option Int := none
  primary_key : Option Int := none
  embedding : List Int := []
deriving DecidableEq

/-- Evaluation of `len(data[0].get("embedding", [])) if data else 768`: the dimension used
for the drop-and-recreate migration. -/
def firstDim : List MilvusRecord → Nat
  | [] => 768
  | r :: _ => r.embedding.length

/-- Python `collection or get_default_collection_name()`: a `None` or empty
collection argument falls back to the env-default name (`MILVUS_COLLECTION`,
assumed resolvable here; a failing lookup inside the migration's
`ensure_collection` call is part of `ensureOutcome` below). -/
def collOr (collection : Option String) (dflt : String) : String :=
  match collection with
  | some c => if c = "" then dflt else c
  | none => dflt

/-- The observable outcome of one `insert_embeddings` call: the returned ids
or propagated error, the new value of the module-global `_MIGRATION_ATTEMPTED`
flag, whether the migration path was entered in this call, the collection the
best-effort `drop_collection` was aimed at, the collection the
`ensure_collection(dim, force=True)` step resolved its `None` name argument
to (set when that call returned), the dimension passed to it, the collection
the retry insert targeted, and whether the retry insert ran at all. -/
structure InsertOutcome where
  result : Except String (List Int)
  migrationAttempted : Bool
  migrated : Bool
  droppedCollection : Option String := none
  ensureTargetCollection : Option String := none
  recreateDim : Option Nat := none
  retryCollection : Option String := none
  retried : Bool := false

/-- Embedding of `insert_embeddings(records, collection)` with the global
flag passed explicitly and every external-client step an oracle.
`coll_name = collection or get_default_collection_name()` is the insert
target.  On a first failure whose message contains `"primary_key"` while the
flag is unset: set the flag, drop `coll_name` best-effort (the exception of
`_dropOutcome` is swallowed by `try/except pass`), then call
`ensure_collection(dim=firstDim records, force=True)` — which, called with
no name, targets the env-default collection `defaultCollection`, not the
dropped `coll_name`, and either returns (`ensureOutcome = .ok`; this also
covers its silent early return when its own internal drop fails) or raises
(`.error`, which propagates and the insert is never retried).  Only when it
returns is the insert retried, once, against the original `coll_name`, with
the retry's outcome (ok or propagated error) as the result.  Any other first
failure re-raises unchanged. -/
def insert_embeddings (migrationAttempted : Bool) (records : List MilvusRecord)
    (collection : Option String) (defaultCollection : String)
    (attempt : Except String (List Int)) (_dropOutcome : Except String Unit)
    (ensureOutcome : Except String Unit) (retry : Except String (List Int)) :
    InsertOutcome :=
  let coll_name := collOr collection defaultCollection
  match attempt with
  | .ok ids =>
    { result := .ok ids, migrationAttempted := migrationAttempted, migrated := false }
  | .error msg =>
    if strContains msg "primary_key" && !migrationAttempted then
      match ensureOutcome with
      | .error e =>
        { result := .error e, migrationAttempted := true, migrated := true,
          droppedCollection := some coll_name,
          recreateDim := some (firstDim records) }
      | .ok _ =>
        { result := retry, migrationAttempted := true, migrated := true,
          droppedCollection := some coll_name,
          ensureTargetCollection := some defaultCollection,
          recreateDim := some (firstDim records),
          retryCollection := some coll_name, retried := true }
    else
      { result := .error msg, migrationAttempted := migrationAttempted, migrated := false }

/-- The inputs of one `insert_embeddings` call in a call sequence. -/
structure InsertCall where
  records : List MilvusRecord
  collection : Option String
  attempt : Except String (List Int)
  dropOutcome : Except String Unit
  ensureOutcome : Except String Unit
  retry : Except String (List Int)

/-- A sequence of `insert_embeddings` calls in one process, threading the
global flag; returns the final flag and how many calls entered the
migration path. -/
def runInsertSequence (defaultCollection : String) (flag : Bool) :
    List InsertCall → Bool × Nat
  | [] => (flag, 0)
  | call :: rest =>
    let o := insert_embeddings flag call.records call.collection defaultCollection
      call.attempt call.dropOutcome call.ensureOutcome call.retry
    let r := runInsertSequence defaultCollection o.migrationAttempted rest
    (r.1, (if o.migrated then 1 else 0) + r.2)

/-- A record whose embedding has dimension 3, used to witness the migration. -/
def pkRecord : MilvusRecord := { embedding := [1, 2, 3] }

/-! ## Knowledge retrieval query (`src/tools/registry.py`, `ihos_doc_search`) -/

/-- One row returned by `search_embeddings`: the hit's distance plus the
requested output fields (`doc_id`, `text`, `chunk_index`), any of which may
be absent.  Distances are opaque scores here, modelled as integers. -/
structure MilvusHit where
  doc_id : Option String := none
  chunk_index : Option Int := none
  distance : Option Int := none
  text : Option (List Char) := none
deriving DecidableEq

/-- One element of the `matches` list in the result JSON. -/
structure DocMatch where
  doc_id : Option String
  chunk_index : Option Int
  score : Option Int
  text_truncated : List Char
deriving DecidableEq

/-- The result JSON of `ihos_doc_search` as a structure: `error` is set only
on the exception path, `message` only on the empty-hits path. -/
structure DocSearchResult where
  query : List Char
  matches' : List DocMatch
  best_match : Option DocMatch
  message : Option String := none
  error : Option String := none
deriving DecidableEq

/-- Python `full_text[:500] + ("..." if len(full_text) > 500 else "")`. -/
def truncate500 (full : List Char) : List Char :=
  full.take 500 ++ (if 500 < full.length then "...".data else [])

/-- Build one match dict from a hit. -/
def hitToMatch (h : MilvusHit) : DocMatch :=
  { doc_id := h.doc_id, chunk_index := h.chunk_index, score := h.distance,
    text_truncated := truncate500 (h.text.getD []) }

/-- Embedding of `ihos_doc_search(query)`: embed the query (oracle `embedOutcome`; an
exception yields the error JSON), search with `k = 3` (oracle `searchK`,
the external client's response to `search(emb, limit, ...)`), return the
empty-matches message result when there are no hits, else the match list with
`best_match` aliasing its first element.  The best-effort load/index retry
before searching swallows its own exceptions and does not affect the
result. -/
def ihos_doc_search (q : List Char) (embedOutcome : Except String (List Int))
    (searchK : List Int → Nat → List MilvusHit) : DocSearchResult :=
  match embedOutcome with
  | .error e =>
    { query := q, matches' := [], best_match := none,
      error := some ("MilvusSearchError: " ++ e) }
  | .ok emb =>
    let hits := searchK emb 3
    if hits = [] then
      { query := q, matches' := [], best_match := none,
        message := some "Không tìm thấy tài liệu phù hợp" }
    else
      let ms := hits.map hitToMatch
      { query := q, matches' := ms, best_match := ms.head? }

/-- A hit whose text has 501 characters, one past the truncation limit. -/
def longHit : MilvusHit := { text := some (List.replicate 501 'a') }

/-! ## Orchestration state machine (`src/agent/graph.py`, `GeminiAgentGraph`;
`src/state/state.py`, `init_state`) -/

/-- A Python `dict` of tool-call arguments; values are modelled as strings
(the only value the claims depend on is the raw query bound by the
single-parameter heuristic). -/
abbrev AArgs := List (String × String)

/-- Python `d.get(k)` on a string-keyed dict modelled as an association
list. -/
def alistGet {α : Type} (d : List (String × α)) (k : String) : Option α :=
  (d.find? (fun p => p.1 == k)).map (fun p => p.2)

/-- Python `d[k] = v`: overwrite the existing binding or append a new one. -/
def alistInsert {α : Type} (d : List (String × α)) (k : String) (v : α) :
    List (String × α) :=
  if (d.find? (fun p => p.1 == k)).isSome then
    d.map (fun p => if p.1 == k then (k, v) else p)
  else d ++ [(k, v)]

/-- The `AgentState` TypedDict of `src/state/state.py`.  `tool_args` is absent
from the initial dict and every read goes through `state.get("tool_args")
or {}`, so the empty list is its faithful initial value. -/
structure AgentState where
  query : String
  selected_tool : Option String := none
  intermediate : List String := []
  output : Option String := none
  trace : List String := []
  tool_args : List (String × AArgs) := []

/-- Embedding of `init_state(query)` from `src/state/state.py`. -/
def init_state (q : String) : AgentState :=
  { query := q, selected_tool := none, intermediate := [], output := none,
    trace := ["INIT: " ++ q], tool_args := [] }

/-- Outcomes of the four language-model interactions of one request, supplied
as oracles.  `structuredOutcome`: the `with_structured_output` attempt
(`.error` = the inner exception, `.ok none` = no structured dict or falsy
`tool_name` after all parse fallbacks, `.ok (some (t, a))` = parsed
`{tool_name, args}`); `bindOutcome`: the JSON parse of the plain
`bind_tools` invoke, with `.error` = an exception reaching the outer
handler; `routeOutcome`: the `tool_calls` list of the router invoke or an
exception; `finalizeOutcome`: the content of the finalize invoke or an
exception. -/
structure LLMOracle where
  structuredOutcome : Except String (Option (String × AArgs))
  bindOutcome : Except String (Option (String × AArgs))
  routeOutcome : Except String (List (String × AArgs))
  finalizeOutcome : Except String String

/-- Rendering of an args dict inside a trace f-string. -/
def argsRepr (a : AArgs) : String :=
  String.intercalate ", " (a.map (fun p => p.1 ++ ": " ++ p.2))

/-- A tool as `tool_node` sees it: its registered name, its declared
parameter names (`tool.args`), and its `invoke` contract, which may raise. -/
structure ToolSpec where
  name : String
  params : List String
  invoke : AArgs → Except String String

/-- The `tool_map` dict comprehension keyed by tool name: a later tool with
the same name overwrites an earlier one, so look up the last match.
`tool_name in tool_map` with `tool_name = None` misses. -/
def lookupTool (tools : List ToolSpec) (name : Option String) : Option ToolSpec :=
  match name with
  | none => none
  | some n => tools.reverse.find? (fun t => t.name == n)

/-- Embedding of `router_node`: with a model, take the first returned tool call; zero
calls or an invocation error fall back to `selected_tool = "echo"`. -/
def router_node (llm : Option LLMOracle) (s : AgentState) : AgentState :=
  match llm with
  | some o =>
    match o.routeOutcome with
    | .ok (first :: _) =>
      { s with selected_tool := some first.1,
               tool_args := alistInsert s.tool_args first.1 first.2,
               trace := s.trace ++
                 ["LLM_TOOL_SELECT -> " ++ first.1 ++ " " ++ argsRepr first.2] }
    | .ok [] =>
      { s with selected_tool := some "echo",
               trace := s.trace ++ ["LLM_TOOL_SELECT_NONE -> echo"] }
    | .error e =>
      { s with selected_tool := some "echo",
               trace := s.trace ++ ["LLM_TOOL_ROUTE_ERROR: " ++ e,
                 "ROUTER_DEFAULT -> echo"] }
  | none =>
    { s with selected_tool := some "echo",
             trace := s.trace ++ ["ROUTER_DEFAULT -> echo"] }

/-- State update shared by both successful structured-extraction paths. -/
def structuredSelect (s : AgentState) (t : String) (a : AArgs) (tag : String) :
    AgentState :=
  { s with tool_args := alistInsert s.tool_args t a,
           selected_tool := some t,
           trace := s.trace ++ [tag ++ " -> " ++ t ++ " " ++ argsRepr a] }

/-- The second half of `llm_structured_node` when the structured-output API
produced no tool call: JSON-parse the plain `bind_tools` invoke (oracle
`bindOutcome`); a usable `{tool_name, args}` selects the tool, an exception
reaches the outer handler (`LLM_STRUCTURED_FATAL`), and everything else
traces `LLM_STRUCTURED_NO_RESULT` and falls back to `router_node`. -/
def structuredBindPhase (o : LLMOracle) (s1 : AgentState) : AgentState :=
  match o.bindOutcome with
  | .ok (some (t, a)) =>
    if t ≠ "" then structuredSelect s1 t a "LLM_STRUCTURED_FALLBACK"
    else router_node (some o)
      { s1 with trace := s1.trace ++ ["LLM_STRUCTURED_NO_RESULT -> fallback router"] }
  | .ok none =>
    router_node (some o)
      { s1 with trace := s1.trace ++ ["LLM_STRUCTURED_NO_RESULT -> fallback router"] }
  | .error e =>
    router_node (some o)
      { s1 with trace := s1.trace ++ ["LLM_STRUCTURED_FATAL: " ++ e,
          "LLM_STRUCTURED_NO_RESULT -> fallback router"] }

/-- Embedding of `llm_structured_node`: no model falls straight back to the router; with a
model, try the structured-output API first (an inner exception is traced and
execution continues with the `bind_tools` fallback, `structuredBindPhase`). -/
def llm_structured_node (llm : Option LLMOracle) (s : AgentState) : AgentState :=
  match llm with
  | none =>
    router_node none
      { s with trace := s.trace ++ ["LLM_STRUCTURED_NOT_AVAILABLE -> fallback router"] }
  | some o =>
    match o.structuredOutcome with
    | .ok (some (t, a)) =>
      if t ≠ "" then structuredSelect s t a "LLM_STRUCTURED"
      else structuredBindPhase o s
    | .ok none => structuredBindPhase o s
    | .error e =>
      structuredBindPhase o { s with trace := s.trace ++ ["LLM_STRUCTURED_ERROR: " ++ e] }

/-- The fixed booking-intent trigger phrases of `dispatch_node`. -/
def booking_triggers : List String :=
  ["đặt phòng", "đặt cho tôi", "đặt phòng giúp", "đặt hộ phòng", "đặt cuộc họp", "đoặt"]

/-- Python `tok in query` substring test on strings. -/
def strContainsSub (hay tok : String) : Bool := listInfixOf tok.data hay.data

/-- Python `query.lower()` (character-wise lowering; the trigger phrases are
already lowercase, and no claim depends on non-ASCII case folding). -/
def pyLower (s : String) : String := String.mk (s.data.map Char.toLower)

/-- Embedding of `dispatch_node`: booking intent goes to structured extraction, everything
else to the general router. -/
def dispatch_node (llm : Option LLMOracle) (s : AgentState) : AgentState :=
  if booking_triggers.any (fun tok => strContainsSub (pyLower s.query) tok) then
    llm_structured_node llm s
  else router_node llm s

/-- The dict `name_map` of `tool_node`, mapping a tool name to its query parameter. -/
def name_map : List (String × String) := [("echo", "text"), ("internet_search", "query")]

/-- Python `f"{x}"` on an optional string. -/
def optStr : Option String → String
  | some s => s
  | none => "None"

/-- Embedding of `tool_node`: look the selected tool up in the registry; fill in missing
arguments by the single-parameter heuristic and then the `name_map` lookup;
persist non-empty resolved args; invoke the tool, converting an exception
into a `ToolError:` result string; an unknown tool yields `ECHO: <query>`
for `"echo"` and `Unknown tool: <name>` otherwise.  The result is appended
to `intermediate`, traced, and stored as `output`. -/
def tool_node (tools : List ToolSpec) (s : AgentState) : AgentState :=
  let tool_name := s.selected_tool
  let query := s.query
  match lookupTool tools tool_name with
  | some t =>
    let args0 := (alistGet s.tool_args t.name).getD []
    let args1 :=
      if args0 = [] then
        match t.params with
        | [p] => [(p, query)]
        | _ => []
      else args0
    let args2 :=
      if args1 = [] then
        match alistGet name_map (tool_name.getD "") with
        | some p => [(p, query)]
        | none => []
      else args1
    let s1 := if args2 ≠ [] then { s with tool_args := alistInsert s.tool_args t.name args2 }
      else s
    let result :=
      match t.invoke args2 with
      | .ok r => r
      | .error e => "ToolError: " ++ e
    { s1 with intermediate := s1.intermediate ++ [result],
              trace := s1.trace ++ ["TOOL " ++ optStr tool_name ++ ": " ++ result],
              output := some result }
  | none =>
    let result :=
      if tool_name = some "echo" then "ECHO: " ++ query
      else "Unknown tool: " ++ optStr tool_name
    { s with intermediate := s.intermediate ++ [result],
             trace := s.trace ++ ["TOOL " ++ optStr tool_name ++ ": " ++ result],
             output := some result }

/-- Embedding of `finalize_node`: with a model, its response content replaces `output`
(an exception is traced and the stage is a pass-through); `FINALIZE` is
always traced.  `state.get("output") or "(no output)"` treats both a missing
and an empty output as `"(no output)"`. -/
def finalize_node (llm : Option LLMOracle) (s : AgentState) : AgentState :=
  let base :=
    match s.output with
    | some o => if o = "" then "(no output)" else o
    | none => "(no output)"
  match llm with
  | some o =>
    match o.finalizeOutcome with
    | .ok content => { s with trace := s.trace ++ ["FINALIZE"], output := some content }
    | .error e =>
      { s with trace := s.trace ++ ["GEMINI_FALLBACK: " ++ e, "FINALIZE"],
               output := some base }
  | none => { s with trace := s.trace ++ ["FINALIZE"], output := some base }

/-- The compiled graph path `dispatch → tool → finalize → END` applied to the
initial state of a query. -/
def run_graph (llm : Option LLMOracle) (tools : List ToolSpec) (q : String) : AgentState :=
  finalize_node llm (tool_node tools (dispatch_node llm (init_state q)))

/-- The `echo` tool of the registry: one declared parameter `text` with
default `""`; returns `ECHO: <text>` for a truthy text and `ECHO: (empty)`
otherwise. -/
def echoTool : ToolSpec :=
  { name := "echo", params := ["text"],
    invoke := fun args =>
      let text := (alistGet args "text").getD ""
      .ok (if text ≠ "" then "ECHO: " ++ text else "ECHO: (empty)") }

/-- A registry tool whose body talks to external stores (Mongo/Milvus/the
internet), with its behaviour supplied by the oracle `ext`. -/
def extTool (ext : String → AArgs → Except String String) (name : String)
    (params : List String) : ToolSpec :=
  { name := name, params := params, invoke := ext name }

/-- The `ALL_TOOLS` registry of `src/tools/registry.py` (final assignment,
15 tools) with declared parameter lists taken from each tool's signature. -/
def ALL_TOOLS (ext : String → AArgs → Except String String) : List ToolSpec :=
  [echoTool,
   extTool ext "all_employees" [],
   extTool ext "employees_by_department_names" ["department_names"],
   extTool ext "ihos_doc_search" ["query", "collection"],
   extTool ext "internet_search" ["query"],
   extTool ext "chart_employees_by_department" [],
   extTool ext "chart_employees_by_gender" [],
   extTool ext "chart_age_distribution" ["buckets"],
   extTool ext "chart_salary_by_department" [],
   extTool ext "chart_avg_salary_by_experience" [],
   extTool ext "chart_education_level_distribution" [],
   extTool ext "chart_headcount_by_hire_year" [],
   extTool ext "available_meeting_rooms" ["time_start", "time_end", "booking_date"],
   extTool ext "book_meeting_room" ["room"],
   extTool ext "list_meeting_rooms" []]

/-- An external-tool oracle standing for unreachable backends. -/
def noExt : String → AArgs → Except String String := fun _ _ => .error "unavailable"

/-- A stage only ever appends to the trace, and appends at least one entry. -/
def traceGrows (f : AgentState → AgentState) : Prop :=
  ∀ s, ∃ t, t ≠ [] ∧ (f s).trace = s.trace ++ t

theorem normChunkSize_pos (cs : Int) : 0 < normChunkSize cs := by
  unfold normChunkSize
  split
  · norm_num
  · omega

theorem window_ne_nil (ws : List (List Char)) (c start : Nat) (hc : 0 < c)
    (hlt : start < ws.length) :
    (ws.drop start).take (min (start + c) ws.length - start) ≠ [] := by
  intro hnil
  have := congrArg List.length hnil
  simp only [List.length_take, List.length_drop, List.length_nil] at this
  omega

theorem splitLoop_stop (ws : List (List Char)) (c o n start : Nat)
    (acc : List (List Char)) (h : ¬ start < ws.length) :
    splitLoop ws c o (n + 1) start acc = some acc := by
  simp [splitLoop, h]

theorem splitLoop_last (ws : List (List Char)) (c o n start : Nat)
    (acc : List (List Char)) (hc : 0 < c) (hlt : start < ws.length)
    (hend : min (start + c) ws.length = ws.length) :
    splitLoop ws c o (n + 1) start acc =
      some (acc ++ [joinSpace ((ws.drop start).take (ws.length - start))]) := by
  have hne := window_ne_nil ws c start hc hlt
  rw [hend] at hne
  simp [splitLoop, hlt, hend, hne]

theorem splitLoop_cont (ws : List (List Char)) (c o n start : Nat)
    (acc : List (List Char)) (hc : 0 < c) (hlt : start < ws.length)
    (hend : min (start + c) ws.length ≠ ws.length) :
    splitLoop ws c o (n + 1) start acc =
      splitLoop ws c o n (if 0 < o then min (start + c) ws.length - o
          else min (start + c) ws.length)
        (acc ++ [joinSpace ((ws.drop start).take (min (start + c) ws.length - start))]) := by
  have hne := window_ne_nil ws c start hc hlt
  simp [splitLoop, hlt, hend, hne]

theorem windowsFrom_stop (ws : List (List Char)) (c o n start : Nat)
    (h : ¬ start < ws.length) :
    windowsFrom ws c o (n + 1) start = some [] := by
  simp [windowsFrom, h]

theorem windowsFrom_last (ws : List (List Char)) (c o n start : Nat)
    (hlt : start < ws.length) (hend : min (start + c) ws.length = ws.length) :
    windowsFrom ws c o (n + 1) start =
      some [(ws.drop start).take (ws.length - start)] := by
  simp [windowsFrom, hlt, hend]

theorem windowsFrom_cont (ws : List (List Char)) (c o n start : Nat)
    (hlt : start < ws.length) (hend : min (start + c) ws.length ≠ ws.length) :
    windowsFrom ws c o (n + 1) start =
      (windowsFrom ws c o n (if 0 < o then min (start + c) ws.length - o
          else min (start + c) ws.length)).map
        ((ws.drop start).take (min (start + c) ws.length - start) :: ·) := by
  simp [windowsFrom, hlt, hend]

theorem splitLoop_isSome (ws : List (List Char)) (c o : Nat) (hoc : o < c) :
    ∀ fuel start acc, ws.length - start < fuel →
      (splitLoop ws c o fuel start acc).isSome = true := by
  intro fuel
  induction fuel with
  | zero => intro start acc h; omega
  | succ n ih =>
    intro start acc h
    by_cases hlt : start < ws.length
    · by_cases hend : min (start + c) ws.length = ws.length
      · rw [splitLoop_last ws c o n start acc (by omega) hlt hend]; rfl
      · rw [splitLoop_cont ws c o n start acc (by omega) hlt hend]
        apply ih
        have he : min (start + c) ws.length = start + c := by omega
        rw [he]
        split <;> omega
    · rw [splitLoop_stop ws c o n start acc hlt]; rfl

theorem splitLoop_eq_windowsFrom (ws : List (List Char)) (c o : Nat) (hc : 0 < c) :
    ∀ fuel start acc,
      splitLoop ws c o fuel start acc =
        (windowsFrom ws c o fuel start).map (fun l => acc ++ l.map joinSpace) := by
  intro fuel
  induction fuel with
  | zero => intro start acc; rfl
  | succ n ih =>
    intro start acc
    by_cases hlt : start < ws.length
    · by_cases hend : min (start + c) ws.length = ws.length
      · rw [splitLoop_last ws c o n start acc hc hlt hend,
            windowsFrom_last ws c o n start hlt hend]
        simp
      · rw [splitLoop_cont ws c o n start acc hc hlt hend,
            windowsFrom_cont ws c o n start hlt hend, ih]
        cases hwf : windowsFrom ws c o n (if 0 < o then min (start + c) ws.length - o
            else min (start + c) ws.length) <;> simp
    · rw [splitLoop_stop ws c o n start acc hlt, windowsFrom_stop ws c o n start hlt]
      simp

theorem windowsFrom_flatten_zero (ws : List (List Char)) (c : Nat) (hc : 0 < c) :
    ∀ fuel start l, windowsFrom ws c 0 fuel start = some l →
      l.flatten = ws.drop start := by
  intro fuel
  induction fuel with
  | zero => intro start l h; exact absurd h (by simp [windowsFrom])
  | succ n ih =>
    intro start l h
    by_cases hlt : start < ws.length
    · by_cases hend : min (start + c) ws.length = ws.length
      · rw [windowsFrom_last ws c 0 n start hlt hend] at h
        cases h
        simp only [List.flatten, List.flatten_nil, List.append_nil]
        exact List.take_of_length_le (by simp [List.length_drop])
      · rw [windowsFrom_cont ws c 0 n start hlt hend] at h
        simp only [Nat.lt_irrefl, if_false] at h
        cases hwf : windowsFrom ws c 0 n (min (start + c) ws.length) with
        | none => rw [hwf] at h; cases h
        | some l' =>
          rw [hwf] at h
          cases h
          simp only [List.flatten_cons]
          rw [ih _ _ hwf]
          rw [show ws.drop (min (start + c) ws.length)
              = (ws.drop start).drop (min (start + c) ws.length - start) by
            rw [List.drop_drop]; congr 1; omega]
          exact List.take_append_drop _ _
    · rw [windowsFrom_stop ws c 0 n start hlt] at h
      cases h
      simp [List.drop_eq_nil_of_le (by omega : ws.length ≤ start)]

theorem pySplitAux_words (s : List Char) :
    ∀ acc, (∀ ch ∈ acc, ch.isWhitespace = false) →
      ∀ w ∈ pySplitAux s acc, w ≠ [] ∧ ∀ ch ∈ w, ch.isWhitespace = false := by
  induction s with
  | nil =>
    intro acc hacc w hw
    rw [pySplitAux] at hw
    by_cases hn : acc = []
    · simp [hn] at hw
    · simp only [hn, if_false, List.mem_singleton] at hw
      subst hw
      refine ⟨by simpa using hn, ?_⟩
      intro ch hch
      exact hacc ch (List.mem_reverse.mp hch)
  | cons c cs ih =>
    intro acc hacc w hw
    rw [pySplitAux] at hw
    by_cases hws : c.isWhitespace
    · by_cases hn : acc = []
      · simp only [hws, hn, if_true] at hw
        exact ih [] (by simp) w hw
      · simp only [hws, hn, if_true, if_false, List.mem_cons] at hw
        rcases hw with hw | hw
        · subst hw
          refine ⟨by simpa using hn, ?_⟩
          intro ch hch
          exact hacc ch (List.mem_reverse.mp hch)
        · exact ih [] (by simp) w hw
    · simp only [hws, if_false, Bool.false_eq_true] at hw
      refine ih (c :: acc) ?_ w hw
      intro ch hch
      rcases List.mem_cons.mp hch with hch | hch
      · subst hch; simpa using hws
      · exact hacc ch hch

theorem pySplit_words (s : List Char) :
    ∀ w ∈ pySplit s, w ≠ [] ∧ ∀ ch ∈ w, ch.isWhitespace = false :=
  pySplitAux_words s [] (by simp)

theorem pySplitAux_append_word (w : List Char) :
    ∀ l acc, (∀ ch ∈ w, ch.isWhitespace = false) →
      pySplitAux (w ++ l) acc = pySplitAux l (w.reverse ++ acc) := by
  induction w with
  | nil => intro l acc _; simp
  | cons c cs ih =>
    intro l acc hw
    have hc : c.isWhitespace = false := hw c (by simp)
    rw [List.cons_append, pySplitAux]
    simp only [hc, Bool.false_eq_true, if_false]
    rw [ih l (c :: acc) (fun ch hch => hw ch (List.mem_cons_of_mem c hch))]
    simp

theorem pySplitAux_space (l : List Char) (acc : List Char) (h : acc ≠ []) :
    pySplitAux (' ' :: l) acc = acc.reverse :: pySplitAux l [] := by
  rw [pySplitAux]
  simp [h, Char.isWhitespace]

theorem pySplit_joinSpace :
    ∀ ws : List (List Char),
      (∀ w ∈ ws, w ≠ [] ∧ ∀ ch ∈ w, ch.isWhitespace = false) →
      pySplit (joinSpace ws) = ws := by
  intro ws
  induction ws with
  | nil => intro _; rfl
  | cons w ws ih =>
    intro hval
    obtain ⟨hwne, hwok⟩ := hval w (by simp)
    cases ws with
    | nil =>
      show pySplitAux w [] = [w]
      rw [show w = w ++ [] by simp, pySplitAux_append_word w [] [] hwok]
      rw [pySplitAux]
      simp [hwne]
    | cons w' ws' =>
      show pySplitAux (w ++ ' ' :: joinSpace (w' :: ws')) [] = w :: w' :: ws'
      rw [pySplitAux_append_word w _ [] hwok, List.append_nil,
          pySplitAux_space _ _ (by simpa using hwne), List.reverse_reverse]
      rw [show pySplitAux (joinSpace (w' :: ws')) [] = pySplit (joinSpace (w' :: ws')) from rfl,
          ih (fun u hu => hval u (List.mem_cons_of_mem w hu))]

theorem windowsFrom_mem (ws : List (List Char)) (c o : Nat) :
    ∀ fuel start l, windowsFrom ws c o fuel start = some l →
      ∀ win ∈ l, ∀ w ∈ win, w ∈ ws := by
  intro fuel
  induction fuel with
  | zero => intro start l h; exact absurd h (by simp [windowsFrom])
  | succ n ih =>
    intro start l h win hwin w hw
    by_cases hlt : start < ws.length
    · by_cases hend : min (start + c) ws.length = ws.length
      · rw [windowsFrom_last ws c o n start hlt hend] at h
        cases h
        simp only [List.mem_singleton] at hwin
        subst hwin
        exact List.mem_of_mem_drop (List.mem_of_mem_take hw)
      · rw [windowsFrom_cont ws c o n start hlt hend] at h
        cases hwf : windowsFrom ws c o n (if 0 < o then min (start + c) ws.length - o
            else min (start + c) ws.length) with
        | none => rw [hwf] at h; cases h
        | some l' =>
          rw [hwf] at h
          cases h
          rcases List.mem_cons.mp hwin with hwin | hwin
          · subst hwin
            exact List.mem_of_mem_drop (List.mem_of_mem_take hw)
          · exact ih _ _ hwf win hwin w hw
    · rw [windowsFrom_stop ws c o n start hlt] at h
      cases h
      simp at hwin

theorem windowsFrom_head (ws : List (List Char)) (c o : Nat) :
    ∀ fuel start win rest, windowsFrom ws c o fuel start = some (win :: rest) →
      win = (ws.drop start).take (min (start + c) ws.length - start) := by
  intro fuel start win rest h
  cases fuel with
  | zero => exact absurd h (by simp [windowsFrom])
  | succ n =>
    by_cases hlt : start < ws.length
    · by_cases hend : min (start + c) ws.length = ws.length
      · rw [windowsFrom_last ws c o n start hlt hend] at h
        rw [hend]
        cases h
        rfl
      · rw [windowsFrom_cont ws c o n start hlt hend] at h
        cases hwf : windowsFrom ws c o n (if 0 < o then min (start + c) ws.length - o
            else min (start + c) ws.length) with
        | none => rw [hwf] at h; cases h
        | some l' => rw [hwf] at h; cases h; rfl
    · rw [windowsFrom_stop ws c o n start hlt] at h
      cases h

theorem windowsFrom_chain (ws : List (List Char)) (c o : Nat) (ho : 0 < o) (hoc : o < c) :
    ∀ fuel start l, windowsFrom ws c o fuel start = some l →
      List.Chain' (fun a b => o ≤ a.length ∧ o ≤ b.length ∧
        b.take o = a.drop (a.length - o)) l := by
  intro fuel
  induction fuel with
  | zero => intro start l h; exact absurd h (by simp [windowsFrom])
  | succ n ih =>
    intro start l h
    by_cases hlt : start < ws.length
    · by_cases hend : min (start + c) ws.length = ws.length
      · rw [windowsFrom_last ws c o n start hlt hend] at h
        cases h
        exact List.chain'_singleton _
      · rw [windowsFrom_cont ws c o n start hlt hend] at h
        cases hwf : windowsFrom ws c o n (if 0 < o then min (start + c) ws.length - o
            else min (start + c) ws.length) with
        | none => rw [hwf] at h; cases h
        | some l' =>
          rw [hwf] at h
          cases h
          rw [if_pos ho] at hwf
          have he : min (start + c) ws.length = start + c := by omega
          have hclt : start + c < ws.length := by omega
          refine List.chain'_cons'.mpr ⟨?_, ih _ _ hwf⟩
          intro b hb
          cases l' with
          | nil => simp at hb
          | cons b' rest' =>
            simp only [List.head?_cons, Option.mem_some_iff] at hb
            subst hb
            have hbval := windowsFrom_head ws c o n _ _ _ hwf
            rw [he] at hbval ⊢
            set s' := start + c - o with hs'
            have hcwlen : ((ws.drop start).take (start + c - start)).length = c := by
              simp only [List.length_take, List.length_drop]
              omega
            have hmin2 : min (s' + c) ws.length - s' ≥ o := by omega
            constructor
            · rw [hcwlen]; omega
            · constructor
              · rw [hbval]
                simp only [List.length_take, List.length_drop]
                omega
              · rw [hbval, hcwlen]
                rw [List.take_take]
                rw [show min o (min (s' + c) ws.length - s') = o by omega]
                rw [List.drop_take]
                rw [List.drop_drop]
                rw [show start + c - start - (c - o) = o by omega]
                rw [show start + (c - o) = s' by omega]
    · rw [windowsFrom_stop ws c o n start hlt] at h
      cases h
      exact List.chain'_nil

theorem windowsFrom_none_of_overlap_ge (ws : List (List Char)) (c o : Nat)
    (hc : 0 < c) (hco : c ≤ o) :
    ∀ fuel start, start + c < ws.length → windowsFrom ws c o fuel start = none := by
  intro fuel
  induction fuel with
  | zero => intro start _; rfl
  | succ n ih =>
    intro start hstart
    have hlt : start < ws.length := by omega
    have hend : min (start + c) ws.length ≠ ws.length := by omega
    rw [windowsFrom_cont ws c o n start hlt hend]
    rw [if_pos (by omega : 0 < o)]
    rw [ih (min (start + c) ws.length - o) (by omega)]
    rfl

theorem chain'_imp_mem {α : Type} {R S : α → α → Prop} :
    ∀ {l : List α}, (∀ a ∈ l, ∀ b ∈ l, R a b → S a b) →
      List.Chain' R l → List.Chain' S l := by
  intro l
  induction l with
  | nil => intro _ _; exact List.chain'_nil
  | cons a l ih =>
    intro hmem hch
    rcases List.chain'_cons'.mp hch with ⟨hhead, htail⟩
    refine List.chain'_cons'.mpr ⟨?_, ?_⟩
    · intro b hb
      refine hmem a (by simp) b ?_ (hhead b hb)
      rcases l with _ | ⟨b', l'⟩
      · simp at hb
      · simp only [List.head?_cons, Option.mem_some_iff] at hb
        subst hb
        simp
    · refine ih ?_ htail
      intro x hx y hy hr
      exact hmem x (List.mem_cons_of_mem a hx) y (List.mem_cons_of_mem a hy) hr

theorem splitLoop_repeat_none :
    ∀ fuel acc, splitLoop [['a'], ['b'], ['c']] 2 2 fuel 0 acc = none := by
  intro fuel
  induction fuel with
  | zero => intro acc; rfl
  | succ n ih =>
    intro acc
    rw [splitLoop_cont [['a'], ['b'], ['c']] 2 2 n 0 acc (by norm_num) (by norm_num)
        (by norm_num)]
    norm_num
    exact ih _

/-- C4 counterexample: on the three-word text `"a b c"` with `chunk_size = 2`
and `overlap = 2`, the loop of `_split_text` runs out of any amount of fuel —
after the first window `[0, 2)` the next start is `2 - 2 = 0`, so `end` does
not strictly increase and the loop never reaches `end == totalWords`. -/
theorem split_text_not_total : chunkerDiverges "a b c".data 2 2 := by
  intro fuel
  show split_text_fuel "a b c".data 2 2 fuel = none
  have hws : pySplit "a b c".data = [['a'], ['b'], ['c']] := by decide
  unfold split_text_fuel
  rw [hws]
  simp only [normChunkSize, normOverlap]
  norm_num
  exact splitLoop_repeat_none fuel []

/-- C4 (amended): the chunking loop of `_split_text` terminates whenever the
normalized overlap is strictly smaller than the normalized chunk size (in
particular for the defaults 800/100): `wordCount + 1` iterations of fuel
always suffice.  Empty input yields an empty chunk sequence for any fuel.
The claim's unconditional termination (`overlap ≥ chunkSize` included) is
refuted by `split_text_not_total`. -/
theorem split_text_terminates (text : List Char) (cs ov : Int) (fuel : Nat)
    (h : normOverlap ov < normChunkSize cs) :
    (split_text_fuel text cs ov ((pySplit text).length + 1)).isSome = true ∧
    split_text_fuel [] cs ov fuel = some [] := by
  constructor
  · unfold split_text_fuel
    by_cases hws : pySplit text = []
    · simp [hws]
    · simp only [hws, if_false]
      exact splitLoop_isSome _ _ _ h _ 0 [] (by omega)
  · rfl

/-- Witness for `split_text_terminates` at `text = "a b"`, `cs = 2`, `ov = 1`. -/
theorem split_text_terminates_witness :
    (split_text_fuel "a b".data 2 1 ((pySplit "a b".data).length + 1)).isSome = true ∧
    split_text_fuel [] 2 1 5 = some [] :=
  split_text_terminates "a b".data 2 1 5 (by decide)

/-- C10: `_split_text` normalizes out-of-range parameters instead of rejecting
them: `chunk_size ≤ 0` behaves exactly like `chunk_size = 800`, and
`overlap < 0` behaves exactly like `overlap = 0`, for every text and fuel. -/
theorem split_text_param_normalization (text : List Char) (cs ov : Int) (fuel : Nat) :
    (cs ≤ 0 → split_text_fuel text cs ov fuel = split_text_fuel text 800 ov fuel) ∧
    (ov < 0 → split_text_fuel text cs ov fuel = split_text_fuel text cs 0 fuel) := by
  constructor
  · intro h
    unfold split_text_fuel normChunkSize
    norm_num [h]
    rfl
  · intro h
    unfold split_text_fuel normOverlap
    norm_num [h]

/-- Witness for `split_text_param_normalization` at `cs = -5`, `ov = -7`. -/
theorem split_text_param_normalization_witness :
    split_text_fuel ['a'] (-5) (-7) 3 = split_text_fuel ['a'] 800 (-7) 3 ∧
    split_text_fuel ['a'] (-5) (-7) 3 = split_text_fuel ['a'] (-5) 0 3 :=
  ⟨(split_text_param_normalization ['a'] (-5) (-7) 3).1 (by norm_num),
   (split_text_param_normalization ['a'] (-5) (-7) 3).2 (by norm_num)⟩

/-- C5: round-trip of the text chunker.  With `overlap = 0` the concatenation
of the whitespace-split words of all produced chunks is exactly the
whitespace-split word sequence of the input; with `overlap > 0` every chunk
after the first begins with exactly the `normOverlap ov` trailing words of
the previous window (next window starts at `end - overlap`). -/
theorem split_text_roundtrip (text : List Char) (cs ov : Int) (fuel : Nat)
    (r : List (List Char)) :
    (1 ≤ cs → split_text_fuel text cs 0 fuel = some r →
      (r.map pySplit).flatten = pySplit text) ∧
    (0 < ov → split_text_fuel text cs ov fuel = some r →
      List.Chain' (fun a b => normOverlap ov ≤ (pySplit a).length ∧
        normOverlap ov ≤ (pySplit b).length ∧
        (pySplit b).take (normOverlap ov) =
          (pySplit a).drop ((pySplit a).length - normOverlap ov)) r) := by
  constructor
  · intro _ h
    unfold split_text_fuel at h
    by_cases hws : pySplit text = []
    · simp only [hws, if_true] at h
      cases h
      simp [hws]
    · simp only [hws, if_false] at h
      rw [splitLoop_eq_windowsFrom _ _ _ (normChunkSize_pos cs) fuel 0 []] at h
      cases hwf : windowsFrom (pySplit text) (normChunkSize cs) (normOverlap 0) fuel 0 with
      | none => rw [hwf] at h; cases h
      | some l =>
        rw [hwf] at h
        cases h
        have hval : ∀ win ∈ l, ∀ w ∈ win, w ∈ pySplit text :=
          windowsFrom_mem _ _ _ fuel 0 l hwf
        have hmap : (l.map joinSpace).map pySplit = l := by
          rw [List.map_map]
          have : ∀ win ∈ l, (pySplit ∘ joinSpace) win = id win := by
            intro win hwin
            exact pySplit_joinSpace win
              (fun w hw => pySplit_words text w (hval win hwin w hw))
          rw [List.map_congr_left this, List.map_id]
        simp only [List.nil_append, hmap]
        have h0 : normOverlap 0 = 0 := rfl
        rw [h0] at hwf
        rw [windowsFrom_flatten_zero _ _ (normChunkSize_pos cs) fuel 0 l hwf]
        rfl
  · intro hov h
    have ho : 0 < normOverlap ov := by
      unfold normOverlap
      rw [if_neg (by omega)]
      omega
    unfold split_text_fuel at h
    by_cases hws : pySplit text = []
    · simp only [hws, if_true] at h
      cases h
      exact List.chain'_nil
    · simp only [hws, if_false] at h
      rw [splitLoop_eq_windowsFrom _ _ _ (normChunkSize_pos cs) fuel 0 []] at h
      cases hwf : windowsFrom (pySplit text) (normChunkSize cs) (normOverlap ov) fuel 0 with
      | none => rw [hwf] at h; cases h
      | some l =>
        rw [hwf] at h
        cases h
        have hval : ∀ win ∈ l, ∀ w ∈ win, w ∈ pySplit text :=
          windowsFrom_mem _ _ _ fuel 0 l hwf
        have hpj : ∀ win ∈ l, pySplit (joinSpace win) = win := by
          intro win hwin
          exact pySplit_joinSpace win
            (fun w hw => pySplit_words text w (hval win hwin w hw))
        simp only [List.nil_append]
        by_cases hoc : normOverlap ov < normChunkSize cs
        · have hchain := windowsFrom_chain _ _ _ ho hoc fuel 0 l hwf
          rw [List.chain'_map]
          refine chain'_imp_mem ?_ hchain
          intro a ha b hb hr
          rw [hpj a ha, hpj b hb]
          exact hr
        · -- `overlap ≥ chunkSize`: the loop can only have produced one window
          -- (a continuation would never terminate), so the chain is trivial.
          cases l with
          | nil => simp
          | cons w0 rest =>
            cases rest with
            | nil => simp
            | cons w1 rest' =>
              exfalso
              cases fuel with
              | zero => exact absurd hwf (by simp [windowsFrom])
              | succ n =>
                have hlt : 0 < (pySplit text).length := by
                  cases hpt : pySplit text
                  · exact absurd hpt hws
                  · simp [hpt]
                by_cases hend : min (0 + normChunkSize cs) (pySplit text).length
                    = (pySplit text).length
                · rw [windowsFrom_last _ _ _ n 0 hlt hend] at hwf
                  cases hwf
                · rw [windowsFrom_cont _ _ _ n 0 hlt hend] at hwf
                  rw [if_pos ho] at hwf
                  have hcl : 0 + normChunkSize cs < (pySplit text).length := by omega
                  rw [windowsFrom_none_of_overlap_ge _ _ _ (normChunkSize_pos cs)
                      (by omega) n (min (0 + normChunkSize cs) (pySplit text).length
                        - normOverlap ov) (by omega)] at hwf
                  cases hwf

/-- Witness for `split_text_roundtrip` on `"a b c d"` with `cs = 2` and
overlaps `0` and `1`. -/
theorem split_text_roundtrip_witness :
    ((["a b".data, "c d".data].map pySplit).flatten = pySplit "a b c d".data) ∧
    List.Chain' (fun a b => normOverlap 1 ≤ (pySplit a).length ∧
      normOverlap 1 ≤ (pySplit b).length ∧
      (pySplit b).take (normOverlap 1) =
        (pySplit a).drop ((pySplit a).length - normOverlap 1))
      ["a b".data, "b c".data, "c d".data] :=
  ⟨(split_text_roundtrip "a b c d".data 2 1 10 ["a b".data, "c d".data]).1
      (by norm_num) (by decide),
   (split_text_roundtrip "a b c d".data 2 1 10
      ["a b".data, "b c".data, "c d".data]).2 (by norm_num) (by decide)⟩

theorem streamDeltas_flatten_aux :
    ∀ (ems : List (List Char)) (last : List Char),
      List.Chain' (fun a b : List Char => a <+: b) (last :: ems) →
      last ++ (streamDeltas last ems).flatten =
        (last :: ems).getLast (List.cons_ne_nil _ _) := by
  intro ems
  induction ems with
  | nil => intro last _; simp [streamDeltas]
  | cons full rest ih =>
    intro last hchain
    rcases List.chain'_cons.mp hchain with ⟨hpre, htail⟩
    rw [show (last :: full :: rest).getLast (List.cons_ne_nil _ _)
        = (full :: rest).getLast (List.cons_ne_nil _ _) from
      List.getLast_cons (List.cons_ne_nil _ _)]
    by_cases hfull : full = []
    · subst hfull
      have hl : last = [] := List.prefix_nil.mp hpre
      subst hl
      show ([] : List Char) ++ (streamDeltas [] rest).flatten = _
      cases rest with
      | nil => simp [streamDeltas]
      | cons r rs =>
        rcases List.chain'_cons.mp htail with ⟨hpre2, htail2⟩
        have := ih [] (List.chain'_cons.mpr ⟨hpre2, htail2⟩)
        simpa [streamDeltas] using this
    · rw [show streamDeltas last (full :: rest)
          = full.drop last.length :: streamDeltas full rest by
        simp [streamDeltas, hfull, List.isPrefixOf_iff_prefix.mpr hpre]]
      rw [List.flatten_cons, ← List.append_assoc]
      rw [show last ++ full.drop last.length = full by
        obtain ⟨t, rfl⟩ := hpre
        rw [List.drop_left]]
      exact ih full htail

/-- C6 (amended): the streaming reconciler of `stream_agent`.  An emission
with empty (falsy) content is skipped, producing no delta and leaving `last`
unchanged (`if not full: continue`); each nonempty emission `full` produces
delta `full[len(last):]` when `full` starts with `last` and `full` itself
otherwise, with `last` then set to `full`; and for every emission sequence in
which each element is a strict prefix-extension of the previous one, the
concatenation of all produced deltas equals the last emission exactly.
The original claim's unconditional "lastFull then set to full" is refuted at
an empty emission by `stream_agent_skips_empty_emissions`. -/
theorem stream_agent_delta_reconstruction (last full : List Char)
    (ems rest : List (List Char)) (l : List Char)
    (hfull : full ≠ [])
    (hchain : List.Chain' (fun a b : List Char => a <+: b ∧ a ≠ b) ems)
    (hlast : ems.getLast? = some l) :
    streamDeltas last ([] :: rest) = streamDeltas last rest ∧
    streamDeltas last (full :: rest) =
      (if last.isPrefixOf full then full.drop last.length else full) ::
        streamDeltas full rest ∧
    (streamDeltas [] ems).flatten = l := by
  refine ⟨by simp [streamDeltas], ?_, ?_⟩
  · by_cases hp : last.isPrefixOf full <;> simp [streamDeltas, hfull, hp]
  · have hne : ems ≠ [] := by
      intro h
      rw [h] at hlast
      cases hlast
    have hweak : List.Chain' (fun a b : List Char => a <+: b) ems :=
      List.Chain'.imp (fun a b h => h.1) hchain
    have hchain0 : List.Chain' (fun a b : List Char => a <+: b) ([] :: ems) := by
      refine List.chain'_cons'.mpr ⟨?_, hweak⟩
      intro y _
      exact List.nil_prefix
    have haux := streamDeltas_flatten_aux ems [] hchain0
    rw [List.nil_append] at haux
    rw [haux, List.getLast_cons hne]
    have := List.getLast?_eq_getLast ems hne
    rw [this] at hlast
    exact (Option.some.injEq _ _).mp hlast

/-- C6 counterexample: the code's `if not full: continue` (run.py:61-62)
skips an empty emission without updating `last`, while the claim's algorithm
resets `lastFull` to the empty `full`.  On the emissions
`["abc", "", "abcd"]` the code yields the deltas `["abc", "d"]`
(concatenation `"abcd"`), whereas the claimed per-emission rule yields
`["abc", "", "abcd"]` (concatenation `"abcabcd"`). -/
theorem stream_agent_skips_empty_emissions :
    streamDeltas "abc".data [[], "abcd".data] = [['d']] ∧
    streamDeltasSpec "abc".data [[], "abcd".data] = [[], "abcd".data] ∧
    (streamDeltas [] ["abc".data, [], "abcd".data]).flatten = "abcd".data ∧
    (streamDeltasSpec [] ["abc".data, [], "abcd".data]).flatten = "abcabcd".data ∧
    "abcd".data ≠ "abcabcd".data :=
  ⟨by decide, by decide, by decide, by decide, by decide⟩

/-- Witness for `stream_agent_delta_reconstruction` on the emission sequence
`["a", "ab"]`. -/
theorem stream_agent_delta_reconstruction_witness :
    streamDeltas [] ([] :: [['a', 'b']]) = streamDeltas [] [['a', 'b']] ∧
    streamDeltas [] [['a'], ['a', 'b']] =
      (if ([] : List Char).isPrefixOf ['a'] then ['a'].drop ([] : List Char).length
        else ['a']) :: streamDeltas ['a'] [['a', 'b']] ∧
    (streamDeltas [] [['a'], ['a', 'b']]).flatten = ['a', 'b'] :=
  stream_agent_delta_reconstruction [] ['a'] [['a'], ['a', 'b']] [['a', 'b']]
    ['a', 'b'] (by decide)
    (by refine List.chain'_cons.mpr ⟨⟨⟨['b'], rfl⟩, by decide⟩, List.chain'_singleton _⟩)
    rfl

/-- C2: for an existing booking document with present `start_time`/`end_time`
fields on the requested date, the availability check's Mongo filter matches
exactly when the spec's three-clause overlap predicate holds; the three
concrete examples of the spec evaluate as claimed. -/
theorem conflict_query_iff_overlap (reqStart reqEnd date exStart exEnd : String)
    (b : ScheduleDoc) (hd : b.booking_date = date)
    (hs : b.start_time = some exStart) (he : b.end_time = some exEnd) :
    (scheduleConflictQuery reqStart reqEnd date b = true ↔
      overlapSpec reqStart reqEnd exStart exEnd) ∧
    overlapSpec "09:00" "10:00" "09:30" "09:45" ∧
    ¬ overlapSpec "09:00" "10:00" "10:00" "11:00" ∧
    ¬ overlapSpec "09:00" "10:00" "08:00" "09:00" := by
  refine ⟨?_, by decide, by decide, by decide⟩
  simp only [scheduleConflictQuery, overlapSpec, hd, hs, he, optLt, optGt, optLe, optGe,
    beq_self_eq_true, Bool.true_and, Bool.and_eq_true, Bool.or_eq_true]
  tauto

/-- Witness for `conflict_query_iff_overlap` on `conflictingExisting` against
the candidate interval 09:00-10:00. -/
theorem conflict_query_iff_overlap_witness :
    (scheduleConflictQuery "09:00" "10:00" "01-09-2023" conflictingExisting = true ↔
      overlapSpec "09:00" "10:00" "09:30" "09:45") ∧
    overlapSpec "09:00" "10:00" "09:30" "09:45" ∧
    ¬ overlapSpec "09:00" "10:00" "10:00" "11:00" ∧
    ¬ overlapSpec "09:00" "10:00" "08:00" "09:00" :=
  conflict_query_iff_overlap "09:00" "10:00" "01-09-2023" "09:30" "09:45"
    conflictingExisting rfl rfl rfl

/-- C3 counterexample: with an existing 09:30-09:45 booking of room A on the
same date already stored, `book_meeting_room` still succeeds for the
overlapping request 09:00-10:00 and both overlapping intervals end up stored;
the claimed conflict rejection does not exist in the code. -/
theorem book_meeting_room_accepts_overlap :
    overlapSpec "09:00" "10:00" "09:30" "09:45" ∧
    (book_meeting_room [conflictingExisting] overlappingRequest (.ok ())).1.success = true ∧
    (book_meeting_room [conflictingExisting] overlappingRequest (.ok ())).2 =
      [conflictingExisting, roomToDoc overlappingRequest] :=
  ⟨by decide, rfl, rfl⟩

/-- C3 (amended): `book_meeting_room` performs no overlap check at all: for
every store and request it succeeds whenever the store insert succeeds and
appends the new interval unconditionally; moreover the inserted document
(which stores `time_start`/`time_end` instead of `start_time`/`end_time`)
never matches the availability check's conflict filter, so persisted bookings
do not participate in subsequent overlap checks either. -/
theorem book_meeting_room_always_persists (store : List ScheduleDoc) (room : Room) :
    (book_meeting_room store room (.ok ())).1.success = true ∧
    (book_meeting_room store room (.ok ())).2 = store ++ [roomToDoc room] ∧
    (∀ reqStart reqEnd date,
      scheduleConflictQuery reqStart reqEnd date (roomToDoc room) = false) := by
  refine ⟨rfl, rfl, ?_⟩
  intro rs re d
  simp [scheduleConflictQuery, roomToDoc, optLt, optGt, optLe]

theorem insert_embeddings_flag_true (records : List MilvusRecord)
    (collection : Option String) (dflt : String)
    (attempt : Except String (List Int)) (dropO ensureO : Except String Unit)
    (retry : Except String (List Int)) :
    (insert_embeddings true records collection dflt attempt dropO ensureO
      retry).migrated = false ∧
    (insert_embeddings true records collection dflt attempt dropO ensureO
      retry).migrationAttempted = true := by
  cases attempt with
  | ok ids => exact ⟨rfl, rfl⟩
  | error msg => simp [insert_embeddings]

theorem runInsertSequence_flag_true (dflt : String) :
    ∀ calls, (runInsertSequence dflt true calls).2 = 0 := by
  intro calls
  induction calls with
  | nil => rfl
  | cons call rest ih =>
    show (if (insert_embeddings true call.records call.collection dflt call.attempt
          call.dropOutcome call.ensureOutcome call.retry).migrated then 1 else 0)
        + (runInsertSequence dflt (insert_embeddings true call.records call.collection
            dflt call.attempt call.dropOutcome call.ensureOutcome
            call.retry).migrationAttempted rest).2 = 0
    rw [(insert_embeddings_flag_true call.records call.collection dflt call.attempt
          call.dropOutcome call.ensureOutcome call.retry).1,
        (insert_embeddings_flag_true call.records call.collection dflt call.attempt
          call.dropOutcome call.ensureOutcome call.retry).2]
    simpa using ih

/-- C7 (amended): the schema-migration path of `insert_embeddings` is entered
iff the first attempt failed with an error message containing `"primary_key"`
while the process-wide flag was still unset, and at most once across any call
sequence.  When entered, the flag is set, the insert-target collection
(`collection or` env default) is dropped best-effort, and the
`ensure_collection(dim, force=True)` step is called with the dimension of the
first record's embedding against the env-default collection — not the dropped
one, when a custom collection was passed; if that step raises, its error
propagates and the insert is never retried; when it returns, the insert is
retried exactly once against the original target collection and the retry's
outcome (ok or propagated error) is the result.  A failure that does not
enter the migration propagates unchanged. -/
theorem insert_embeddings_migration (flag : Bool) (records : List MilvusRecord)
    (collection : Option String) (dflt : String)
    (attempt : Except String (List Int)) (dropO ensureO : Except String Unit)
    (retry : Except String (List Int)) (calls : List InsertCall)
    (o : InsertOutcome)
    (ho : o = insert_embeddings flag records collection dflt attempt dropO ensureO retry) :
    (o.migrated = true ↔
      (flag = false ∧ ∃ msg, attempt = .error msg ∧ strContains msg "primary_key" = true)) ∧
    (o.migrated = true →
      o.migrationAttempted = true ∧
      o.droppedCollection = some (collOr collection dflt) ∧
      o.recreateDim = some (firstDim records)) ∧
    (o.migrated = true →
      (∀ e, ensureO = .error e → o.result = .error e ∧ o.retried = false) ∧
      (ensureO = .ok () → o.result = retry ∧ o.retried = true ∧
        o.ensureTargetCollection = some dflt ∧
        o.retryCollection = some (collOr collection dflt))) ∧
    (∀ msg, attempt = .error msg → o.migrated = false → o.result = .error msg) ∧
    (runInsertSequence dflt false calls).2 ≤ 1 := by
  subst ho
  refine ⟨?_, ?_, ?_, ?_, ?_⟩
  · cases attempt with
    | ok ids => simp [insert_embeddings]
    | error msg =>
      by_cases hpk : strContains msg "primary_key" = true <;> cases flag <;>
        cases ensureO <;> simp [insert_embeddings, hpk]
  · intro hmig
    cases attempt with
    | ok ids => exact absurd hmig (by simp [insert_embeddings])
    | error msg =>
      by_cases hc : (strContains msg "primary_key" && !flag) = true
      · cases ensureO <;> simp [insert_embeddings, hc]
      · rw [show insert_embeddings flag records collection dflt (.error msg) dropO
              ensureO retry
            = { result := .error msg, migrationAttempted := flag, migrated := false } by
          simp [insert_embeddings, hc]] at hmig
        cases hmig
  · intro hmig
    cases attempt with
    | ok ids => exact absurd hmig (by simp [insert_embeddings])
    | error msg =>
      by_cases hc : (strContains msg "primary_key" && !flag) = true
      · cases ensureO with
        | error e =>
          rw [show insert_embeddings flag records collection dflt (.error msg) dropO
                (.error e) retry
              = { result := .error e, migrationAttempted := true, migrated := true,
                  droppedCollection := some (collOr collection dflt),
                  recreateDim := some (firstDim records) } by
            simp [insert_embeddings, hc]]
          constructor
          · intro e' he'
            have hee : e = e' := by simpa using he'
            subst hee
            exact ⟨rfl, rfl⟩
          · intro h
            exact absurd h (by simp)
        | ok u =>
          cases u
          rw [show insert_embeddings flag records collection dflt (.error msg) dropO
                (.ok ()) retry
              = { result := retry, migrationAttempted := true, migrated := true,
                  droppedCollection := some (collOr collection dflt),
                  ensureTargetCollection := some dflt,
                  recreateDim := some (firstDim records),
                  retryCollection := some (collOr collection dflt), retried := true } by
            simp [insert_embeddings, hc]]
          constructor
          · intro e' he'
            exact absurd he' (by simp)
          · intro _
            exact ⟨rfl, rfl, rfl, rfl⟩
      · rw [show insert_embeddings flag records collection dflt (.error msg) dropO
              ensureO retry
            = { result := .error msg, migrationAttempted := flag, migrated := false } by
          simp [insert_embeddings, hc]] at hmig
        cases hmig
  · intro msg hmsg hnomig
    subst hmsg
    by_cases hc : (strContains msg "primary_key" && !flag) = true
    · cases ensureO with
      | error e =>
        rw [show insert_embeddings flag records collection dflt (.error msg) dropO
              (.error e) retry
            = { result := .error e, migrationAttempted := true, migrated := true,
                droppedCollection := some (collOr collection dflt),
                recreateDim := some (firstDim records) } by
          simp [insert_embeddings, hc]] at hnomig
        cases hnomig
      | ok u =>
        cases u
        rw [show insert_embeddings flag records collection dflt (.error msg) dropO
              (.ok ()) retry
            = { result := retry, migrationAttempted := true, migrated := true,
                droppedCollection := some (collOr collection dflt),
                ensureTargetCollection := some dflt,
                recreateDim := some (firstDim records),
                retryCollection := some (collOr collection dflt), retried := true } by
          simp [insert_embeddings, hc]] at hnomig
        cases hnomig
    · simp [insert_embeddings, hc]
  · induction calls with
    | nil => exact Nat.zero_le 1
    | cons call rest ih =>
      obtain ⟨recs, coll, att, dro, ens, ret⟩ := call
      show (if (insert_embeddings false recs coll dflt att dro ens ret).migrated
            then 1 else 0)
          + (runInsertSequence dflt (insert_embeddings false recs coll dflt att dro ens
              ret).migrationAttempted rest).2 ≤ 1
      cases att with
      | ok ids => simpa [insert_embeddings] using ih
      | error msg =>
        by_cases hc : strContains msg "primary_key" = true
        · cases ens with
          | error e =>
            rw [show insert_embeddings false recs coll dflt (.error msg) dro (.error e) ret
                = { result := .error e, migrationAttempted := true, migrated := true,
                    droppedCollection := some (collOr coll dflt),
                    recreateDim := some (firstDim recs) } by simp [insert_embeddings, hc]]
            rw [runInsertSequence_flag_true dflt rest]
            simp
          | ok u =>
            cases u
            rw [show insert_embeddings false recs coll dflt (.error msg) dro (.ok ()) ret
                = { result := ret, migrationAttempted := true, migrated := true,
                    droppedCollection := some (collOr coll dflt),
                    ensureTargetCollection := some dflt,
                    recreateDim := some (firstDim recs),
                    retryCollection := some (collOr coll dflt), retried := true } by
              simp [insert_embeddings, hc]]
            rw [runInsertSequence_flag_true dflt rest]
            simp
        · rw [show insert_embeddings false recs coll dflt (.error msg) dro ens ret
              = { result := .error msg, migrationAttempted := false, migrated := false } by
            simp [insert_embeddings, hc]]
          simpa using ih

/-- C7 counterexample: with the custom collection `"ihos_documents"` (the one
the text-ingestion pipeline always passes) and env-default collection
`"hospital_embeddings"`, the migration drops `ihos_documents` but its
`ensure_collection(dim, force=True)` call — made with no name argument —
targets `hospital_embeddings`, not the dropped collection, refuting
"recreates it"; and when the ensure step raises, the error propagates and
the insert is never retried, refuting "retries the insert exactly once". -/
theorem insert_embeddings_recreates_default_collection :
    (insert_embeddings false [pkRecord] (some "ihos_documents") "hospital_embeddings"
      (.error "missing primary_key field") (.ok ()) (.ok ()) (.ok [7])).droppedCollection
      = some "ihos_documents" ∧
    (insert_embeddings false [pkRecord] (some "ihos_documents") "hospital_embeddings"
      (.error "missing primary_key field") (.ok ()) (.ok ())
      (.ok [7])).ensureTargetCollection = some "hospital_embeddings" ∧
    ("hospital_embeddings" : String) ≠ "ihos_documents" ∧
    (insert_embeddings false [pkRecord] (some "ihos_documents") "hospital_embeddings"
      (.error "missing primary_key field") (.ok ()) (.error "create failed")
      (.ok [7])).result = .error "create failed" ∧
    (insert_embeddings false [pkRecord] (some "ihos_documents") "hospital_embeddings"
      (.error "missing primary_key field") (.ok ()) (.error "create failed")
      (.ok [7])).retried = false :=
  ⟨rfl, rfl, by decide, rfl, rfl⟩

/-- Witness for `insert_embeddings_migration`: a first failure mentioning
`primary_key` with the flag unset enters the migration; the ensure step
returns, so the insert is retried once, the flag is set, and the dimension
passed to the recreate step is 3. -/
theorem insert_embeddings_migration_witness :
    (insert_embeddings false [pkRecord] (some "ihos_documents") "hospital_embeddings"
      (.error "missing primary_key field") (.ok ()) (.ok ()) (.ok [7])).result
      = .ok [7] ∧
    (insert_embeddings false [pkRecord] (some "ihos_documents") "hospital_embeddings"
      (.error "missing primary_key field") (.ok ()) (.ok ()) (.ok [7])).migrationAttempted
      = true ∧
    (insert_embeddings false [pkRecord] (some "ihos_documents") "hospital_embeddings"
      (.error "missing primary_key field") (.ok ()) (.ok ()) (.ok [7])).recreateDim
      = some 3 ∧
    (insert_embeddings false [pkRecord] (some "ihos_documents") "hospital_embeddings"
      (.error "missing primary_key field") (.ok ()) (.ok ()) (.ok [7])).retried
      = true := by
  have h := insert_embeddings_migration false [pkRecord] (some "ihos_documents")
    "hospital_embeddings" (.error "missing primary_key field") (.ok ()) (.ok ())
    (.ok [7]) [] _ rfl
  have hmig : (insert_embeddings false [pkRecord] (some "ihos_documents")
      "hospital_embeddings" (.error "missing primary_key field") (.ok ()) (.ok ())
      (.ok [7])).migrated = true := rfl
  refine ⟨((h.2.2.1 hmig).2 rfl).1, (h.2.1 hmig).1, ?_, ((h.2.2.1 hmig).2 rfl).2.1⟩
  have hdim := (h.2.1 hmig).2.2
  simpa [firstDim, pkRecord] using hdim

theorem truncate500_length_le (full : List Char) :
    (truncate500 full).length ≤ 503 := by
  have h3 : ("...".data : List Char).length = 3 := rfl
  unfold truncate500
  rw [List.length_append, List.length_take]
  by_cases h : 500 < full.length
  · rw [if_pos h, h3]
    omega
  · rw [if_neg h, List.length_nil]
    omega

/-- C8 (amended): with a successful embedding and a search client honouring
its `limit = 3` contract, `ihos_doc_search` returns at most 3 matches, every
match's truncated text has at most 503 characters (a ≤ 500-character prefix
plus a 3-character ellipsis when truncation happened), `best_match` is the
first match, and an empty search yields the empty-matches result with no
error. -/
theorem ihos_doc_search_result_shape (q : List Char) (emb : List Int)
    (searchK : List Int → Nat → List MilvusHit)
    (hk : (searchK emb 3).length ≤ 3) :
    (ihos_doc_search q (.ok emb) searchK).matches'.length ≤ 3 ∧
    (∀ m ∈ (ihos_doc_search q (.ok emb) searchK).matches',
      m.text_truncated.length ≤ 503) ∧
    (searchK emb 3 ≠ [] →
      (ihos_doc_search q (.ok emb) searchK).best_match =
        (ihos_doc_search q (.ok emb) searchK).matches'.head?) ∧
    (searchK emb 3 = [] →
      (ihos_doc_search q (.ok emb) searchK).matches' = [] ∧
      (ihos_doc_search q (.ok emb) searchK).best_match = none ∧
      (ihos_doc_search q (.ok emb) searchK).error = none) := by
  by_cases hhits : searchK emb 3 = []
  · refine ⟨?_, ?_, ?_, ?_⟩ <;> simp [ihos_doc_search, hhits]
  · refine ⟨?_, ?_, ?_, ?_⟩
    · simpa [ihos_doc_search, hhits] using hk
    · intro m hm
      simp only [ihos_doc_search, hhits, if_false, List.mem_map] at hm
      obtain ⟨h, _, rfl⟩ := hm
      exact truncate500_length_le _
    · intro _
      simp [ihos_doc_search, hhits]
    · intro h
      exact absurd h hhits

set_option maxRecDepth 10000 in
/-- C8 counterexample: a hit with a 501-character text yields a
`text_truncated` of 503 characters (500 kept plus the `"..."` ellipsis),
exceeding the claimed 500-character bound. -/
theorem ihos_doc_search_truncation_exceeds_500 :
    ((ihos_doc_search "q".data (.ok []) (fun _ _ => [longHit])).matches'.map
      (fun m => m.text_truncated.length)) = [503] ∧ ¬ (503 ≤ 500) :=
  ⟨by decide, by decide⟩

/-- Witness for `ihos_doc_search_result_shape` on a single short hit. -/
theorem ihos_doc_search_result_shape_witness :
    (ihos_doc_search "q".data (.ok [])
      (fun _ _ => [{ text := some "hi".data }])).matches'.length ≤ 3 ∧
    (∀ m ∈ (ihos_doc_search "q".data (.ok [])
      (fun _ _ => [{ text := some "hi".data }])).matches',
      m.text_truncated.length ≤ 503) ∧
    ((fun _ _ => [({ text := some "hi".data } : MilvusHit)]) ([] : List Int) 3 ≠ [] →
      (ihos_doc_search "q".data (.ok [])
        (fun _ _ => [{ text := some "hi".data }])).best_match =
      (ihos_doc_search "q".data (.ok [])
        (fun _ _ => [{ text := some "hi".data }])).matches'.head?) ∧
    ((fun _ _ => [({ text := some "hi".data } : MilvusHit)]) ([] : List Int) 3 = [] →
      (ihos_doc_search "q".data (.ok [])
        (fun _ _ => [{ text := some "hi".data }])).matches' = [] ∧
      (ihos_doc_search "q".data (.ok [])
        (fun _ _ => [{ text := some "hi".data }])).best_match = none ∧
      (ihos_doc_search "q".data (.ok [])
        (fun _ _ => [{ text := some "hi".data }])).error = none) :=
  ihos_doc_search_result_shape "q".data [] (fun _ _ => [{ text := some "hi".data }])
    (by decide)

theorem dispatch_none_parts (s : AgentState) :
    (dispatch_node none s).selected_tool = some "echo" ∧
    (dispatch_node none s).query = s.query ∧
    (dispatch_node none s).tool_args = s.tool_args ∧
    (dispatch_node none s).intermediate = s.intermediate ∧
    (dispatch_node none s).output = s.output := by
  unfold dispatch_node
  split <;> simp [llm_structured_node, router_node]

theorem lookupTool_echo (ext : String → AArgs → Except String String) :
    lookupTool (ALL_TOOLS ext) (some "echo") = some echoTool := by rfl

theorem tool_node_echo_parts (ext : String → AArgs → Except String String)
    (s : AgentState) (hsel : s.selected_tool = some "echo") (hta : s.tool_args = []) :
    (tool_node (ALL_TOOLS ext) s).output =
      some (if s.query ≠ "" then "ECHO: " ++ s.query else "ECHO: (empty)") ∧
    (tool_node (ALL_TOOLS ext) s).selected_tool = some "echo" := by
  unfold tool_node
  rw [hsel]
  simp only [lookupTool_echo]
  simp [echoTool, hta, alistGet, hsel]

theorem finalize_selected_tool (llm : Option LLMOracle) (s : AgentState) :
    (finalize_node llm s).selected_tool = s.selected_tool := by
  cases llm with
  | none => rfl
  | some o => cases h : o.finalizeOutcome <;> simp [finalize_node, h]

theorem finalize_none_passthrough (s : AgentState) (t : String)
    (h : s.output = some t) (ht : t ≠ "") :
    (finalize_node none s).output = s.output := by
  simp [finalize_node, h, ht]

/-- C1 (amended): with no language-model client, every request with a
nonempty query selects the `echo` tool and outputs `ECHO: <query>` verbatim,
with the finalize stage leaving the tool result unchanged.  (For the empty
query the echo tool's falsy-text branch yields `ECHO: (empty)` instead, see
`run_graph_empty_query_not_verbatim`.) -/
theorem run_graph_no_llm_echo (q : String)
    (ext : String → AArgs → Except String String) (hq : q ≠ "") :
    (run_graph none (ALL_TOOLS ext) q).selected_tool = some "echo" ∧
    (run_graph none (ALL_TOOLS ext) q).output = some ("ECHO: " ++ q) ∧
    (run_graph none (ALL_TOOLS ext) q).output =
      (tool_node (ALL_TOOLS ext) (dispatch_node none (init_state q))).output := by
  obtain ⟨hsel, hquery, hta, _, _⟩ := dispatch_none_parts (init_state q)
  have hq' : (dispatch_node none (init_state q)).query = q := hquery
  have hta' : (dispatch_node none (init_state q)).tool_args = [] := hta
  obtain ⟨hout, hsel2⟩ := tool_node_echo_parts ext _ hsel hta'
  rw [hq'] at hout
  rw [if_pos hq] at hout
  have hne : "ECHO: " ++ q ≠ "" := by
    intro h
    have hl := congrArg String.length h
    rw [String.length_append] at hl
    have h6 : ("ECHO: " : String).length = 6 := rfl
    rw [h6] at hl
    simp at hl
  have hfin := finalize_none_passthrough _ _ hout hne
  refine ⟨?_, ?_, ?_⟩
  · show (finalize_node none _).selected_tool = some "echo"
    rw [finalize_selected_tool]
    exact hsel2
  · show (finalize_node none _).output = _
    rw [hfin]
    exact hout
  · exact hfin

/-- Witness for `run_graph_no_llm_echo` at the query `"hi"`. -/
theorem run_graph_no_llm_echo_witness :
    (run_graph none (ALL_TOOLS noExt) "hi").selected_tool = some "echo" ∧
    (run_graph none (ALL_TOOLS noExt) "hi").output = some ("ECHO: " ++ "hi") ∧
    (run_graph none (ALL_TOOLS noExt) "hi").output =
      (tool_node (ALL_TOOLS noExt) (dispatch_node none (init_state "hi"))).output :=
  run_graph_no_llm_echo "hi" noExt (by decide)

/-- C1 counterexample: with no model and the empty query, the echo tool's
falsy-text branch produces `ECHO: (empty)`, not the verbatim substitution
`ECHO: ` the claim requires for every query. -/
theorem run_graph_empty_query_not_verbatim :
    (run_graph none (ALL_TOOLS noExt) "").output = some "ECHO: (empty)" ∧
    ¬ (run_graph none (ALL_TOOLS noExt) "").output = some ("ECHO: " ++ "") :=
  ⟨by decide, by decide⟩

theorem trace_grows_router (llm : Option LLMOracle) (s : AgentState) :
    ∃ t, t ≠ [] ∧ (router_node llm s).trace = s.trace ++ t := by
  cases llm with
  | none => exact ⟨["ROUTER_DEFAULT -> echo"], by simp, rfl⟩
  | some o =>
    cases hro : o.routeOutcome with
    | ok calls =>
      cases calls with
      | nil => exact ⟨["LLM_TOOL_SELECT_NONE -> echo"], by simp, by simp [router_node, hro]⟩
      | cons first rest =>
        exact ⟨["LLM_TOOL_SELECT -> " ++ first.1 ++ " " ++ argsRepr first.2], by simp,
          by simp [router_node, hro]⟩
    | error e =>
      exact ⟨["LLM_TOOL_ROUTE_ERROR: " ++ e, "ROUTER_DEFAULT -> echo"], by simp,
        by simp [router_node, hro]⟩

theorem trace_grows_router_appended (llm : Option LLMOracle) (s : AgentState)
    (pre : List String) :
    ∃ t, t ≠ [] ∧
      (router_node llm { s with trace := s.trace ++ pre }).trace = s.trace ++ (pre ++ t) := by
  obtain ⟨t, ht, heq⟩ := trace_grows_router llm { s with trace := s.trace ++ pre }
  exact ⟨t, ht, by rw [heq]; simp⟩

theorem trace_grows_bind_phase (o : LLMOracle) (s : AgentState) (pre : List String) :
    ∃ t, t ≠ [] ∧
      (structuredBindPhase o { s with trace := s.trace ++ pre }).trace =
        s.trace ++ (pre ++ t) := by
  cases hbo : o.bindOutcome with
  | ok ob =>
    cases ob with
    | some pair =>
      obtain ⟨t1, a1⟩ := pair
      by_cases ht1 : t1 = ""
      · obtain ⟨t, ht, heq⟩ := trace_grows_router_appended (some o) s
          (pre ++ ["LLM_STRUCTURED_NO_RESULT -> fallback router"])
        refine ⟨"LLM_STRUCTURED_NO_RESULT -> fallback router" :: t, by simp, ?_⟩
        have hred : structuredBindPhase o { s with trace := s.trace ++ pre } =
            router_node (some o)
              { s with trace := s.trace ++
                  (pre ++ ["LLM_STRUCTURED_NO_RESULT -> fallback router"]) } := by
          simp [structuredBindPhase, hbo, ht1]
        rw [hred, heq]
        simp
      · refine ⟨["LLM_STRUCTURED_FALLBACK -> " ++ t1 ++ " " ++ argsRepr a1], by simp, ?_⟩
        simp [structuredBindPhase, hbo, ht1, structuredSelect]
    | none =>
      obtain ⟨t, ht, heq⟩ := trace_grows_router_appended (some o) s
        (pre ++ ["LLM_STRUCTURED_NO_RESULT -> fallback router"])
      refine ⟨"LLM_STRUCTURED_NO_RESULT -> fallback router" :: t, by simp, ?_⟩
      have hred : structuredBindPhase o { s with trace := s.trace ++ pre } =
          router_node (some o)
            { s with trace := s.trace ++
                (pre ++ ["LLM_STRUCTURED_NO_RESULT -> fallback router"]) } := by
        simp [structuredBindPhase, hbo]
      rw [hred, heq]
      simp
  | error e =>
    obtain ⟨t, ht, heq⟩ := trace_grows_router_appended (some o) s
      (pre ++ ["LLM_STRUCTURED_FATAL: " ++ e, "LLM_STRUCTURED_NO_RESULT -> fallback router"])
    refine ⟨("LLM_STRUCTURED_FATAL: " ++ e) ::
      "LLM_STRUCTURED_NO_RESULT -> fallback router" :: t, by simp, ?_⟩
    have hred : structuredBindPhase o { s with trace := s.trace ++ pre } =
        router_node (some o)
          { s with trace := s.trace ++ (pre ++ ["LLM_STRUCTURED_FATAL: " ++ e,
              "LLM_STRUCTURED_NO_RESULT -> fallback router"]) } := by
      simp [structuredBindPhase, hbo]
    rw [hred, heq]
    simp

theorem trace_grows_structured (llm : Option LLMOracle) (s : AgentState) :
    ∃ t, t ≠ [] ∧ (llm_structured_node llm s).trace = s.trace ++ t := by
  cases llm with
  | none =>
    obtain ⟨t, ht, heq⟩ := trace_grows_router_appended none s
      ["LLM_STRUCTURED_NOT_AVAILABLE -> fallback router"]
    exact ⟨"LLM_STRUCTURED_NOT_AVAILABLE -> fallback router" :: t, by simp,
      by rw [show llm_structured_node none s = router_node none
          { s with trace := s.trace ++ ["LLM_STRUCTURED_NOT_AVAILABLE -> fallback router"] }
        from rfl, heq]; simp⟩
  | some o =>
    cases hso : o.structuredOutcome with
    | ok oso =>
      cases oso with
      | some pair =>
        obtain ⟨t0, a0⟩ := pair
        by_cases ht0 : t0 = ""
        · obtain ⟨t, ht, heq⟩ := trace_grows_bind_phase o s []
          refine ⟨t, ht, ?_⟩
          have hred : llm_structured_node (some o) s =
              structuredBindPhase o { s with trace := s.trace ++ [] } := by
            simp [llm_structured_node, hso, ht0]
          rw [hred, heq]
          simp
        · refine ⟨["LLM_STRUCTURED -> " ++ t0 ++ " " ++ argsRepr a0], by simp, ?_⟩
          simp [llm_structured_node, hso, ht0, structuredSelect]
      | none =>
        obtain ⟨t, ht, heq⟩ := trace_grows_bind_phase o s []
        refine ⟨t, ht, ?_⟩
        have hred : llm_structured_node (some o) s =
            structuredBindPhase o { s with trace := s.trace ++ [] } := by
          simp [llm_structured_node, hso]
        rw [hred, heq]
        simp
    | error e =>
      obtain ⟨t, ht, heq⟩ := trace_grows_bind_phase o s ["LLM_STRUCTURED_ERROR: " ++ e]
      refine ⟨("LLM_STRUCTURED_ERROR: " ++ e) :: t, by simp, ?_⟩
      have hred : llm_structured_node (some o) s =
          structuredBindPhase o { s with trace := s.trace ++ ["LLM_STRUCTURED_ERROR: " ++ e] } := by
        simp [llm_structured_node, hso]
      rw [hred, heq]
      simp

theorem trace_grows_dispatch (llm : Option LLMOracle) (s : AgentState) :
    ∃ t, t ≠ [] ∧ (dispatch_node llm s).trace = s.trace ++ t := by
  unfold dispatch_node
  split
  · exact trace_grows_structured llm s
  · exact trace_grows_router llm s

theorem trace_of_argsIte (P : Prop) [Decidable P] (s : AgentState)
    (x : List (String × AArgs)) :
    (if P then { s with tool_args := x } else s).trace = s.trace := by
  split <;> rfl

theorem trace_grows_tool (tools : List ToolSpec) (s : AgentState) :
    ∃ x, (tool_node tools s).trace = s.trace ++ [x] := by
  cases hl : lookupTool tools s.selected_tool with
  | none =>
    simp only [tool_node, hl]
    exact ⟨_, rfl⟩
  | some tsp =>
    simp only [tool_node, hl]
    exact ⟨_, by rw [trace_of_argsIte]⟩

theorem trace_grows_finalize (llm : Option LLMOracle) (s : AgentState) :
    ∃ t, t ≠ [] ∧ (finalize_node llm s).trace = s.trace ++ t := by
  cases llm with
  | none => exact ⟨["FINALIZE"], by simp, rfl⟩
  | some o =>
    cases hfo : o.finalizeOutcome with
    | ok content => exact ⟨["FINALIZE"], by simp, by simp [finalize_node, hfo]⟩
    | error e =>
      exact ⟨["GEMINI_FALLBACK: " ++ e, "FINALIZE"], by simp, by simp [finalize_node, hfo]⟩

/-- C9: the trace is append-only.  The initial state's trace is
`["INIT: <query>"]`; every stage (structured extraction, routing, dispatch,
tool execution, finalize) rewrites the trace only by appending a nonempty
list of entries, for every model oracle, registry, and state; consequently
the full run's trace extends `["INIT: <query>"]` by a nonempty suffix. -/
theorem trace_append_only (llm : Option LLMOracle) (tools : List ToolSpec) (q : String) :
    (init_state q).trace = ["INIT: " ++ q] ∧
    traceGrows (llm_structured_node llm) ∧
    traceGrows (router_node llm) ∧
    traceGrows (dispatch_node llm) ∧
    traceGrows (tool_node tools) ∧
    traceGrows (finalize_node llm) ∧
    ∃ rest, rest ≠ [] ∧ (run_graph llm tools q).trace = ["INIT: " ++ q] ++ rest := by
  refine ⟨rfl, trace_grows_structured llm, trace_grows_router llm,
    trace_grows_dispatch llm, ?_, trace_grows_finalize llm, ?_⟩
  · intro s
    obtain ⟨x, hx⟩ := trace_grows_tool tools s
    exact ⟨[x], by simp, hx⟩
  · obtain ⟨t1, ht1, h1⟩ := trace_grows_dispatch llm (init_state q)
    obtain ⟨x2, h2⟩ := trace_grows_tool tools (dispatch_node llm (init_state q))
    obtain ⟨t3, ht3, h3⟩ := trace_grows_finalize llm
      (tool_node tools (dispatch_node llm (init_state q)))
    refine ⟨t1 ++ [x2] ++ t3, by simp, ?_⟩
    show (finalize_node llm _).trace = _
    rw [h3, h2, h1]
    simp [init_state]

end IHos
